import Mathlib

/-!
Verification of the mobile-dev-mcp core: UI-tree parsing and element search
(src/utils.ts), the signed license cache and entitlement resolution
(license module), the tool access policy (types.ts / license module), and
the wait_for_element polling handler (server dispatch).

Strings are modelled as `List Char`; JS string operations (substring
containment via includes, toLowerCase, truthiness of the empty string) are
embedded explicitly.
-/

namespace MobileDev

/-- Boolean prefix test on character lists (models JS string startsWith used
implicitly by the regex scanners). -/
def pfx : List Char → List Char → Bool
  | [], _ => true
  | _ :: _, [] => false
  | a :: as, b :: bs => a == b && pfx as bs

/-- Substring containment, models JS String.prototype.includes:
`listContains hay needle` is true iff needle occurs as a contiguous
substring of hay (the empty needle always matches). -/
def listContains : List Char → List Char → Bool
  | [], needle => needle.isEmpty
  | c :: rest, needle => pfx needle (c :: rest) || listContains rest needle

/-- Character-wise lowercasing, models JS String.prototype.toLowerCase
(ASCII range, which is what the matcher semantics depend on). -/
def lowerStr (s : List Char) : List Char := s.map Char.toLower

-- ============================================================================
-- UI TREE PARSING (src/utils.ts parseUiTree)
-- ============================================================================

/-- A parsed UI element, from the UiElement interface in src/utils.ts.
centerX/centerY are the optional computed fields. -/
structure UiElement where
  text : List Char
  resourceId : List Char
  className : List Char
  contentDescription : List Char
  bounds : List Char
  clickable : Bool
  enabled : Bool
  focused : Bool
  selected : Bool
  checked : Bool
  scrollable : Bool
  centerX : Option Nat
  centerY : Option Nat
deriving DecidableEq, Repr

/-- 10MB input ceiling from src/utils.ts (MAX_XML_SIZE). -/
def MAX_XML_SIZE : Nat := 10 * 1024 * 1024

/-- 50000 element ceiling from src/utils.ts (MAX_ELEMENTS). -/
def MAX_ELEMENTS : Nat := 50000

/-- The literal "<node" that opens a node declaration
(regex /<node[^>]+>/ in parseUiTree). -/
def nodeTag : List Char := ['<', 'n', 'o', 'd', 'e']

/-- Try to match the node regex /<node[^>]+>/ anchored at the start of s:
the literal tag, then one or more non-'>' characters, then '>'.
On success returns the matched node text and the remainder of the input
after the match (the regex's lastIndex position). -/
def tryNodeAt (s : List Char) : Option (List Char × List Char) :=
  if pfx nodeTag s then
    let after := s.drop 5
    let body := after.takeWhile (fun c => c != '>')
    let rest := after.dropWhile (fun c => c != '>')
    if body.isEmpty then none
    else
      match rest with
      | [] => none
      | _ :: rem => some (nodeTag ++ body ++ ['>'], rem)
  else none

/-- Fuel-indexed scanner for the global regex loop
`while ((match = nodeRegex.exec(xmlDump)) !== null)`: at each position try
the anchored node match; on success emit it and resume after the match,
otherwise advance one character. Fuel only bounds recursion depth; it is
set to the input length, which the fuel-irrelevance lemma shows is enough. -/
def findNodesF : Nat → List Char → List (List Char)
  | 0, _ => []
  | _ + 1, [] => []
  | f + 1, c :: rest =>
    match tryNodeAt (c :: rest) with
    | some (node, rem) => node :: findNodesF f rem
    | none => findNodesF f rest

/-- All node declarations of the dump, in document order (the sequence of
matches of /<node[^>]+>/g). -/
def findNodes (s : List Char) : List (List Char) := findNodesF s.length s

/-- A single well-formed node literal used as a building block for large
dumps. -/
def nodeUnit : List Char := ['<', 'n', 'o', 'd', 'e', ' ', '>']

/-- A dump holding one more node declaration than the element ceiling. -/
def bigDump : List Char := (List.replicate (MAX_ELEMENTS + 1) nodeUnit).flatten

/-- Try to match the attribute regex /NAME="([^\x22]*)"/ anchored at the
start of s, where pat is the literal NAME plus the equals sign and opening
quote: greedily take non-quote characters, require a closing quote; returns
the captured value. -/
def tryAttrAt (pat : List Char) (s : List Char) : Option (List Char) :=
  if pfx pat s then
    let after := s.drop pat.length
    let v := after.takeWhile (fun c => c != '"')
    let r := after.dropWhile (fun c => c != '"')
    if r.isEmpty then none else some v
  else none

/-- Leftmost match of the attribute regex over the node text
(JS String.prototype.match with an unanchored regex). -/
def findAttr (pat : List Char) : List Char → Option (List Char)
  | [] => none
  | c :: rest =>
    match tryAttrAt pat (c :: rest) with
    | some v => some v
    | none => findAttr pat rest

/-- The full pattern for one attribute: its name, '=', and the opening quote. -/
def attrPat (name : List Char) : List Char := name ++ ['=', '"']

/-- getText from parseUiTree: the captured attribute value, or the empty
string when the attribute is absent. -/
def getText (name : List Char) (node : List Char) : List Char :=
  (findAttr (attrPat name) node).getD []

/-- getBool from parseUiTree: true iff the attribute value is exactly "true". -/
def getBool (name : List Char) (node : List Char) : Bool :=
  getText name node == ['t', 'r', 'u', 'e']

/-- Decimal digit-run conversion, as JS Number on a digit string. -/
def digitsToNat (ds : List Char) : Nat :=
  ds.foldl (fun a c => a * 10 + (c.toNat - 48)) 0

/-- Consume a nonempty maximal run of decimal digits (regex \d+). -/
def expectNum (s : List Char) : Option (Nat × List Char) :=
  let ds := s.takeWhile Char.isDigit
  if ds.isEmpty then none
  else some (digitsToNat ds, s.dropWhile Char.isDigit)

/-- Consume one expected literal character. -/
def expectChar (c : Char) (s : List Char) : Option (List Char) :=
  match s with
  | [] => none
  | x :: xs => if x == c then some xs else none

/-- Match the bounds regex at the start of s:
a literal rectangle of the shape [x1,y1][x2,y2] with \d+ coordinates. -/
def parseBoundsAt (s : List Char) : Option (Nat × Nat × Nat × Nat) := do
  let s1 ← expectChar '[' s
  let (x1, s2) ← expectNum s1
  let s3 ← expectChar ',' s2
  let (y1, s4) ← expectNum s3
  let s5 ← expectChar ']' s4
  let s6 ← expectChar '[' s5
  let (x2, s7) ← expectNum s6
  let s8 ← expectChar ',' s7
  let (y2, s9) ← expectNum s8
  let _ ← expectChar ']' s9
  pure (x1, y1, x2, y2)

/-- Leftmost match of the bounds rectangle regex over the bounds string
(element.bounds.match in parseUiTree). -/
def findBounds : List Char → Option (Nat × Nat × Nat × Nat)
  | [] => none
  | c :: rest =>
    match parseBoundsAt (c :: rest) with
    | some v => some v
    | none => findBounds rest

def textName : List Char := ['t', 'e', 'x', 't']

def resourceIdName : List Char :=
  ['r', 'e', 's', 'o', 'u', 'r', 'c', 'e', '-', 'i', 'd']

def classAttrName : List Char := ['c', 'l', 'a', 's', 's']

def contentDescName : List Char :=
  ['c', 'o', 'n', 't', 'e', 'n', 't', '-', 'd', 'e', 's', 'c']

def boundsName : List Char := ['b', 'o', 'u', 'n', 'd', 's']

def clickableName : List Char := ['c', 'l', 'i', 'c', 'k', 'a', 'b', 'l', 'e']

def enabledName : List Char := ['e', 'n', 'a', 'b', 'l', 'e', 'd']

def focusedName : List Char := ['f', 'o', 'c', 'u', 's', 'e', 'd']

def selectedName : List Char := ['s', 'e', 'l', 'e', 'c', 't', 'e', 'd']

def checkedName : List Char := ['c', 'h', 'e', 'c', 'k', 'e', 'd']

def scrollableName : List Char :=
  ['s', 'c', 'r', 'o', 'l', 'l', 'a', 'b', 'l', 'e']

/-- One iteration body of the node loop of parseUiTree: build the element
from the node text, then derive the optional center from the bounds match:
centerX = floor of (x1+x2)/2 and centerY = floor of (y1+y2)/2. -/
def parseNode (node : List Char) : UiElement :=
  let bounds := getText boundsName node
  let center := findBounds bounds
  { text := getText textName node
    resourceId := getText resourceIdName node
    className := getText classAttrName node
    contentDescription := getText contentDescName node
    bounds := bounds
    clickable := getBool clickableName node
    enabled := getBool enabledName node
    focused := getBool focusedName node
    selected := getBool selectedName node
    checked := getBool checkedName node
    scrollable := getBool scrollableName node
    centerX := center.map (fun q => (q.1 + q.2.2.1) / 2)
    centerY := center.map (fun q => (q.2.1 + q.2.2.2) / 2) }

/-- The element-accumulating loop of parseUiTree: before handling each node
match, stop if the count ceiling is already reached (silent truncation). -/
def parseLoop : List (List Char) → Nat → List UiElement
  | [], _ => []
  | n :: rest, count =>
    if count ≥ MAX_ELEMENTS then []
    else parseNode n :: parseLoop rest (count + 1)

/-- parseUiTree from src/utils.ts: reject oversized dumps with the
size-exceeded error, otherwise collect elements from node matches up to
the element ceiling. -/
def parseUiTree (dump : List Char) : Except Unit (List UiElement) :=
  if dump.length > MAX_XML_SIZE then .error ()
  else .ok (parseLoop (findNodes dump) 0)

-- ============================================================================
-- ELEMENT MATCHER (src/utils.ts findElementInTree)
-- ============================================================================

/-- Search criteria for findElementInTree; a field set to none models an
absent property of the criteria object. -/
structure Criteria where
  text : Option (List Char)
  resourceId : Option (List Char)
  contentDescription : Option (List Char)
  className : Option (List Char)
deriving DecidableEq, Repr

/-- The JS guard `criteria.f && test`: an absent or empty-string criterion
is falsy and never matches; otherwise the test decides. -/
def critMatch : Option (List Char) → (List Char → Bool) → Bool
  | none, _ => false
  | some t, f => !t.isEmpty && f t

/-- The text criterion check: case-insensitive substring containment. -/
def textCrit (c : Criteria) (el : UiElement) : Bool :=
  critMatch c.text (fun t => listContains (lowerStr el.text) (lowerStr t))

/-- The resourceId criterion check: case-sensitive substring containment. -/
def resourceIdCrit (c : Criteria) (el : UiElement) : Bool :=
  critMatch c.resourceId (fun t => listContains el.resourceId t)

/-- The contentDescription criterion check: case-insensitive substring
containment. -/
def contentDescCrit (c : Criteria) (el : UiElement) : Bool :=
  critMatch c.contentDescription
    (fun t => listContains (lowerStr el.contentDescription) (lowerStr t))

/-- The className criterion check: case-sensitive substring containment. -/
def classNameCrit (c : Criteria) (el : UiElement) : Bool :=
  critMatch c.className (fun t => listContains el.className t)

/-- findElementInTree from src/utils.ts: walk the elements in order; for
each, test the four criteria in the fixed order text, resourceId,
contentDescription, className, returning the element on the first test
that fires; null when the walk finishes. -/
def findElementInTree : List UiElement → Criteria → Option UiElement
  | [], _ => none
  | el :: rest, c =>
    if textCrit c el then some el
    else if resourceIdCrit c el then some el
    else if contentDescCrit c el then some el
    else if classNameCrit c el then some el
    else findElementInTree rest c

/-- An element satisfies some supplied criterion (the disjunction of the
four per-criterion checks). -/
def matchesAnyCriterion (c : Criteria) (el : UiElement) : Bool :=
  textCrit c el || resourceIdCrit c el || contentDescCrit c el
    || classNameCrit c el

-- ============================================================================
-- TOOL ACCESS POLICY (src/types.ts and the license module)
-- ============================================================================

/-- The two subscription tiers. -/
inductive Tier
  | free
  | advanced
deriving DecidableEq, Repr

/-- FREE_TOOLS from src/types.ts. -/
def FREE_TOOLS : List String :=
  ["screenshot_emulator", "list_devices", "get_device_info", "get_app_info",
   "get_adb_logs", "get_metro_logs", "check_metro_status",
   "get_license_status"]

/-- ADVANCED_TOOLS from src/types.ts: the free tools plus the
advanced-only ones. -/
def ADVANCED_TOOLS : List String :=
  FREE_TOOLS ++
  ["screenshot_ios_simulator", "list_ios_simulators",
   "get_ios_simulator_info", "get_ios_simulator_logs",
   "get_ui_tree", "find_element", "wait_for_element",
   "get_element_property", "assert_element",
   "suggest_action", "analyze_screen", "get_screen_text",
   "set_license_key"]

/-- canAccessTool from the license module: free tools are always
accessible; advanced tools require the advanced tier; anything else is
denied. -/
def canAccessTool (toolName : String) (tier : Tier) : Bool :=
  if FREE_TOOLS.contains toolName then true
  else if tier = Tier.advanced then ADVANCED_TOOLS.contains toolName
  else false

-- ============================================================================
-- LICENSE CACHE AND ENTITLEMENT RESOLUTION (license module)
-- ============================================================================

/-- The data part of the cached license (CachedLicense.data). lastValidated
is the stored timestamp, with the code's `|| 0` default folded in. -/
structure CacheData where
  tier : Tier
  licenseKey : List Char
  expiresAt : Option (List Char)
  lastValidated : Nat
deriving DecidableEq, Repr

/-- The persisted cache envelope: data plus hex HMAC signature. -/
structure Envelope where
  data : CacheData
  signature : List Char
deriving DecidableEq, Repr

/-- The functional behaviour of crypto.timingSafeEqual on equal-length
buffers: all corresponding bytes agree. -/
def ctEq (a b : List Char) : Bool := (a.zip b).all (fun p => p.1 == p.2)

/-- verifyCacheSignature from the license module, with the HMAC-and-serialize
step abstracted as `sign` (it is keyed by the machine-identity-derived
secret, so `sign` stands for the reader's machine): recompute the expected
signature, reject on a length mismatch before the constant-time
comparison, then compare byte-wise. -/
def verifyCacheSignature (sign : CacheData → List Char) (d : CacheData)
    (sig : List Char) : Bool :=
  let expected := sign d
  if sig.length != expected.length then false
  else ctEq sig expected

/-- loadCachedLicense: absent file yields null; a falsy (empty) signature is
the legacy envelope and is deleted; a verifying signature yields the
embedded data with the file kept; a mismatch deletes the file and yields
null. Returns the result and the file state afterwards. -/
def loadCachedLicense (sign : CacheData → List Char) :
    Option Envelope → Option CacheData × Option Envelope
  | none => (none, none)
  | some env =>
    if env.signature.isEmpty then (none, none)
    else if verifyCacheSignature sign env.data env.signature then
      (some env.data, some env)
    else (none, none)

/-- The resolved license (LicenseInfo in the license module). -/
structure LicenseInfo where
  tier : Tier
  valid : Bool
  licenseKey : Option (List Char)
  expiresAt : Option (List Char)
deriving DecidableEq, Repr

/-- The fallback result { tier: "free", valid: true }. -/
def freeInfo : LicenseInfo := ⟨Tier.free, true, none, none⟩

/-- 1-hour cache TTL (CACHE_TTL_MS). -/
def CACHE_TTL_MS : Nat := 60 * 60 * 1000

/-- checkLicense from the license module, as a function of the file state,
the current time, and the remote validator's outcome (`validate` returns
the new license info together with the envelope it wrote on success, and
none on any validation failure). Returns the resolved info and the file
state afterwards. A cached record with a falsy (empty) licenseKey is
skipped entirely; a fresh record is honored; a stale record triggers
re-validation, whose failure deletes the cache and falls back to free. -/
def checkLicense (sign : CacheData → List Char) (file : Option Envelope)
    (now : Nat) (validate : List Char → Option (LicenseInfo × Envelope)) :
    LicenseInfo × Option Envelope :=
  let r := loadCachedLicense sign file
  match r.1 with
  | some c =>
    if c.licenseKey.isEmpty then (freeInfo, r.2)
    else if now - c.lastValidated < CACHE_TTL_MS then
      ({ tier := c.tier, valid := true, licenseKey := some c.licenseKey,
         expiresAt := c.expiresAt }, r.2)
    else
      match validate c.licenseKey with
      | some (info, env) => (info, some env)
      | none => (freeInfo, none)
  | none => (freeInfo, r.2)

/-- The outer try/catch of checkLicense: any thrown error anywhere during
resolution is caught and replaced by the free fallback. -/
def resolveTier : Except Unit LicenseInfo → LicenseInfo
  | .ok i => i
  | .error _ => freeInfo

-- ============================================================================
-- WAIT_FOR_ELEMENT HANDLER (server dispatch, wait_for_element case)
-- ============================================================================

/-- The outcome reported by wait_for_element: whether the element was found
and the reported waitTime in milliseconds. -/
structure WaitResult where
  found : Bool
  waitTime : Nat
deriving DecidableEq, Repr

/-- 60-second timeout cap (MAX_TIMEOUT). -/
def MAX_TIMEOUT : Nat := 60000

/-- Fixed 500ms polling interval (pollInterval). -/
def POLL_INTERVAL : Nat := 500

/-- The effective timeout: `(args.timeout as number) || 5000` (a falsy
requested value defaults to 5000), then
Math.max(1000, Math.min(requested, MAX_TIMEOUT)). -/
def clampTimeout (requested : Nat) : Nat :=
  let t := if requested = 0 then 5000 else requested
  max 1000 (min t MAX_TIMEOUT)

/-- The polling loop `while (Date.now() - startTime < timeout)`, modelled on
a discrete clock where poll k begins at elapsed time k * POLL_INTERVAL
(each iteration ends in sleep(pollInterval)). `polls k` is the parsed
element list of the k-th freshly acquired dump, none when that dump
acquisition failed (errors during polling are ignored and the loop
continues). The fuel argument only bounds recursion and is chosen large
enough that the time guard always exits the loop first. On timeout the
reported waitTime is the (clamped) timeout value itself, as in the code's
timeout result object. -/
def waitLoop (polls : Nat → Option (List UiElement)) (c : Criteria)
    (timeout : Nat) : Nat → Nat → WaitResult
  | 0, _ => ⟨false, timeout⟩
  | fuel + 1, k =>
    if k * POLL_INTERVAL < timeout then
      match polls k with
      | some els =>
        match findElementInTree els c with
        | some _ => ⟨true, k * POLL_INTERVAL⟩
        | none => waitLoop polls c timeout fuel (k + 1)
      | none => waitLoop polls c timeout fuel (k + 1)
    else ⟨false, timeout⟩

/-- The wait_for_element handler: clamp the caller-requested timeout, then
poll until match or timeout. -/
def waitForElement (polls : Nat → Option (List UiElement)) (c : Criteria)
    (requested : Nat) : WaitResult :=
  let t := clampTimeout requested
  waitLoop polls c t (t + 1) 0

-- ============================================================================
-- GET_UI_TREE RESULT SHAPING (server dispatch, get_ui_tree case)
-- ============================================================================

/-- The element shape reported by get_ui_tree. -/
structure ShapedElement where
  text : List Char
  resourceId : List Char
  className : List Char
  contentDescription : List Char
  bounds : List Char
  clickable : Bool
  center : Option (Nat × Nat)
deriving DecidableEq, Repr

/-- className.split(".").pop(): the final dot-separated component. -/
def lastDotComponent (s : List Char) : List Char :=
  (s.reverse.takeWhile (fun c => c != '.')).reverse

/-- One mapped element of the get_ui_tree result: the center field is
`el.centerX && el.centerY ? { x, y } : undefined`, so it is present only
when both coordinates are defined AND both are nonzero (JS truthiness of
the number 0). -/
def shapeElement (el : UiElement) : ShapedElement :=
  { text := el.text
    resourceId := el.resourceId
    className := lastDotComponent el.className
    contentDescription := el.contentDescription
    bounds := el.bounds
    clickable := el.clickable
    center :=
      match el.centerX, el.centerY with
      | some x, some y => if x != 0 && y != 0 then some (x, y) else none
      | _, _ => none }

/-- The compressed filter of get_ui_tree: keep clickable elements and those
with nonempty text or contentDescription. -/
def compressedKeep (el : UiElement) : Bool :=
  el.clickable || !el.text.isEmpty || !el.contentDescription.isEmpty

/-- The get_ui_tree result element list: optionally filter, then shape. -/
def getUiTreeShape (compressed : Bool) (els : List UiElement) :
    List ShapedElement :=
  (if compressed then els.filter compressedKeep else els).map shapeElement

-- ============================================================================
-- THEOREMS
-- ============================================================================

theorem pfx_length {p s : List Char} (h : pfx p s = true) : p.length ≤ s.length := by
  induction p generalizing s with
  | nil => simp
  | cons a as ih =>
    cases s with
    | nil => simp [pfx] at h
    | cons b bs =>
      simp only [pfx, Bool.and_eq_true] at h
      have := ih h.2
      simp only [List.length_cons]
      omega

theorem tryNodeAt_some_length {s n rem : List Char}
    (h : tryNodeAt s = some (n, rem)) : rem.length + 7 ≤ s.length := by
  unfold tryNodeAt at h
  by_cases hp : pfx nodeTag s = true
  · simp only [hp, if_true] at h
    by_cases hb : ((s.drop 5).takeWhile (fun c => c != '>')).isEmpty = true
    · simp [hb] at h
    · simp only [hb, if_false, Bool.false_eq_true] at h
      cases hr : (s.drop 5).dropWhile (fun c => c != '>') with
      | nil => rw [hr] at h; simp at h
      | cons x xs =>
        rw [hr] at h
        simp only [Option.some.injEq, Prod.mk.injEq] at h
        obtain ⟨-, h2⟩ := h
        subst h2
        have h5 : (s.drop 5).length = s.length - 5 := List.length_drop 5 s
        have hbody : ((s.drop 5).takeWhile (fun c => c != '>')).length ≥ 1 := by
          rcases hq : (s.drop 5).takeWhile (fun c => c != '>') with _ | ⟨y, ys⟩
          · rw [hq] at hb; simp at hb
          · simp
        have htd : ((s.drop 5).takeWhile (fun c => c != '>')).length
            + ((s.drop 5).dropWhile (fun c => c != '>')).length
            = (s.drop 5).length := by
          rw [← List.length_append, List.takeWhile_append_dropWhile]
        rw [hr] at htd
        have hpl : 5 ≤ s.length := by
          have := pfx_length hp
          simpa [nodeTag] using this
        simp only [List.length_cons] at htd ⊢
        omega
  · simp [hp] at h

theorem findNodesF_congr : ∀ (f g : Nat) (s : List Char),
    s.length ≤ f → s.length ≤ g → findNodesF f s = findNodesF g s := by
  intro f
  induction f with
  | zero =>
    intro g s hf _
    have : s = [] := by
      cases s with
      | nil => rfl
      | cons a as => simp at hf
    subst this
    cases g <;> simp [findNodesF]
  | succ f ih =>
    intro g s hf hg
    cases s with
    | nil => cases g <;> simp [findNodesF]
    | cons c rest =>
      cases g with
      | zero => simp at hg
      | succ g =>
        cases htry : tryNodeAt (c :: rest) with
        | none =>
          have h1 : rest.length ≤ f := by simp at hf; omega
          have h2 : rest.length ≤ g := by simp at hg; omega
          simp only [findNodesF, htry]
          exact ih g rest h1 h2
        | some p =>
          obtain ⟨node, rem⟩ := p
          have hlen := tryNodeAt_some_length htry
          simp only [List.length_cons] at hlen hf hg
          have h1 : rem.length ≤ f := by omega
          have h2 : rem.length ≤ g := by omega
          simp only [findNodesF, htry]
          rw [ih g rem h1 h2]

theorem findNodes_nil : findNodes [] = [] := rfl

theorem findNodes_cons_none {c : Char} {rest : List Char}
    (h : tryNodeAt (c :: rest) = none) :
    findNodes (c :: rest) = findNodes rest := by
  unfold findNodes
  simp only [List.length_cons, findNodesF, h]

theorem findNodes_cons_some {c : Char} {rest node rem : List Char}
    (h : tryNodeAt (c :: rest) = some (node, rem)) :
    findNodes (c :: rest) = node :: findNodes rem := by
  unfold findNodes
  simp only [List.length_cons, findNodesF, h]
  have hlen := tryNodeAt_some_length h
  simp only [List.length_cons] at hlen
  congr 1
  exact findNodesF_congr rest.length rem.length rem (by omega) (by omega)

theorem ctEq_iff {a b : List Char} (h : a.length = b.length) :
    ctEq a b = true ↔ a = b := by
  induction a generalizing b with
  | nil =>
    cases b with
    | nil => simp [ctEq]
    | cons y ys => simp at h
  | cons x xs ih =>
    cases b with
    | nil => simp at h
    | cons y ys =>
      simp only [List.length_cons] at h
      have h' : xs.length = ys.length := by omega
      simp only [ctEq, List.zip_cons_cons, List.all_cons] at ih ⊢
      rw [Bool.and_eq_true, ih h']
      simp [beq_iff_eq]

theorem verifyCacheSignature_iff (sign : CacheData → List Char)
    (d : CacheData) (sig : List Char) :
    verifyCacheSignature sign d sig = true ↔ sig = sign d := by
  unfold verifyCacheSignature
  by_cases h : sig.length = (sign d).length
  · simp only [h, bne_self_eq_false, Bool.false_eq_true, if_false]
    simpa using ctEq_iff h
  · have hb : (sig.length != (sign d).length) = true := by
      simpa [bne_iff_ne] using h
    simp only [hb, if_true]
    constructor
    · intro hfalse; cases hfalse
    · intro he; exact absurd (by rw [he]) h

/-- Claim C5: entitlement is monotone: any tool accessible at the free tier
is also accessible at the advanced tier; the free tool set is a subset of
the advanced tool set; and any tool name in neither set is denied for both
tiers. -/
theorem claim_C5 :
    (∀ T : String, canAccessTool T Tier.free = true →
        canAccessTool T Tier.advanced = true)
    ∧ (∀ t ∈ FREE_TOOLS, t ∈ ADVANCED_TOOLS)
    ∧ (∀ T : String, T ∉ FREE_TOOLS → T ∉ ADVANCED_TOOLS →
        canAccessTool T Tier.free = false
          ∧ canAccessTool T Tier.advanced = false) := by
  refine ⟨?_, ?_, ?_⟩
  · intro T h
    unfold canAccessTool at h ⊢
    by_cases hf : FREE_TOOLS.contains T = true
    · rw [if_pos hf]
    · rw [if_neg hf, if_neg (by decide : ¬ (Tier.free = Tier.advanced))] at h
      exact absurd h (by decide)
  · intro t ht
    unfold ADVANCED_TOOLS
    exact List.mem_append_left _ ht
  · intro T h1 h2
    have hf : FREE_TOOLS.contains T = false := by
      simpa using h1
    have ha : ADVANCED_TOOLS.contains T = false := by
      simpa using h2
    have hf' : ¬ (FREE_TOOLS.contains T = true) := by rw [hf]; simp
    unfold canAccessTool
    constructor
    · rw [if_neg hf', if_neg (by decide : ¬ (Tier.free = Tier.advanced))]
    · rw [if_neg hf', if_pos rfl]
      exact ha

/-- Witness for claim C5 at concrete tool names: get_adb_logs is free and
therefore also advanced-accessible and a member of the advanced set, and
the unknown name bogus_tool is denied for both tiers. -/
theorem claim_C5_witness :
    canAccessTool "get_adb_logs" Tier.advanced = true
    ∧ "get_adb_logs" ∈ ADVANCED_TOOLS
    ∧ (canAccessTool "bogus_tool" Tier.free = false
        ∧ canAccessTool "bogus_tool" Tier.advanced = false) :=
  ⟨claim_C5.1 "get_adb_logs" (by decide),
   claim_C5.2.1 "get_adb_logs" (by decide),
   claim_C5.2.2 "bogus_tool" (by decide) (by decide)⟩

/-- Claim C7: parseUiTree fails with the size-exceeded error, and produces
no element list, exactly when the dump length exceeds MAX_XML_SIZE; at or
below the ceiling it returns an element list and never that error. -/
theorem claim_C7 (dump : List Char) :
    ((∃ e, parseUiTree dump = Except.error e) ↔ dump.length > MAX_XML_SIZE)
    ∧ ((∃ els, parseUiTree dump = Except.ok els)
        ↔ dump.length ≤ MAX_XML_SIZE) := by
  unfold parseUiTree
  by_cases h : dump.length > MAX_XML_SIZE
  · simp [h]
  · simp [h]
    omega

/-- Claim C9: a cached record whose licenseKey is empty is ignored even
when its signature verifies, it is fresh, and its tier is advanced:
checkLicense returns the free fallback. -/
theorem claim_C9 (sign : CacheData → List Char) (d : CacheData) (now : Nat)
    (validate : List Char → Option (LicenseInfo × Envelope))
    (hsig : sign d ≠ []) (hkey : d.licenseKey = []) :
    (checkLicense sign (some ⟨d, sign d⟩) now validate).1 = freeInfo := by
  unfold checkLicense loadCachedLicense
  have hv : verifyCacheSignature sign d (sign d) = true :=
    (verifyCacheSignature_iff sign d (sign d)).mpr rfl
  simp [hsig, hv, hkey]

/-- Witness for claim C9: a fresh, advanced-tier, correctly signed record
with an empty licenseKey still resolves to the free fallback. -/
theorem claim_C9_witness :
    (checkLicense (fun c => 'a' :: c.licenseKey)
        (some ⟨⟨Tier.advanced, [], none, 1000⟩,
               (fun (c : CacheData) => 'a' :: c.licenseKey)
                 ⟨Tier.advanced, [], none, 1000⟩⟩)
        1000 (fun _ => none)).1 = freeInfo :=
  claim_C9 (fun c => 'a' :: c.licenseKey) ⟨Tier.advanced, [], none, 1000⟩
    1000 (fun _ => none) (by decide) rfl

/-- Claim C10: in the get_ui_tree result shaping, an element with defined
center coordinates of which either equals 0 has its center field omitted,
because presence is decided by JS truthiness of centerX and centerY. -/
theorem claim_C10 (el : UiElement) (x y : Nat)
    (hx : el.centerX = some x) (hy : el.centerY = some y)
    (h0 : x = 0 ∨ y = 0) :
    (shapeElement el).center = none := by
  unfold shapeElement
  simp only [hx, hy]
  rcases h0 with h | h <;> subst h <;> simp

/-- Witness for claim C10: the element parsed from bounds [0,0][0,10] has
centerX = 0 and centerY = 5, and its shaped center is absent. -/
theorem claim_C10_witness :
    (shapeElement (parseNode ("<node bounds=\"[0,0][0,10]\" />".toList))).center
      = none :=
  claim_C10 (parseNode ("<node bounds=\"[0,0][0,10]\" />".toList)) 0 5
    (by decide) (by decide) (Or.inl rfl)

/-- Claim C2: a cache envelope signed over its own data by the reader's
machine loads successfully and is kept; an envelope whose data was mutated
(so that the recomputed HMAC differs, which any single-bit change of the
data gives under HMAC collision resistance) or whose signature was mutated
loads as absent and the file is removed; and the signature comparison
rejects on a length mismatch before the byte-wise constant-time
comparison. `sign` abstracts the HMAC over the serialized data keyed by
the reader's machine-identity-derived secret; an HMAC hex digest is never
empty, which hgood and hmut state. -/
theorem claim_C2 (sign : CacheData → List Char) (d dmut : CacheData)
    (sigmut : List Char)
    (hgood : sign d ≠ [])
    (hdata : sign dmut ≠ sign d)
    (hsig : sigmut ≠ sign d) (hmut : sigmut ≠ []) :
    loadCachedLicense sign (some ⟨d, sign d⟩) = (some d, some ⟨d, sign d⟩)
    ∧ loadCachedLicense sign (some ⟨dmut, sign d⟩) = (none, none)
    ∧ loadCachedLicense sign (some ⟨d, sigmut⟩) = (none, none)
    ∧ ∀ sig : List Char, sig.length ≠ (sign d).length →
        verifyCacheSignature sign d sig = false := by
  refine ⟨?_, ?_, ?_, ?_⟩
  · have hv : verifyCacheSignature sign d (sign d) = true :=
      (verifyCacheSignature_iff sign d (sign d)).mpr rfl
    unfold loadCachedLicense
    simp [hgood, hv]
  · have hv : verifyCacheSignature sign dmut (sign d) = false := by
      rcases hb : verifyCacheSignature sign dmut (sign d) with _ | _
      · rfl
      · exact absurd ((verifyCacheSignature_iff sign dmut (sign d)).mp hb)
          (Ne.symm hdata)
    unfold loadCachedLicense
    simp [hgood, hv]
  · have hv : verifyCacheSignature sign d sigmut = false := by
      rcases hb : verifyCacheSignature sign d sigmut with _ | _
      · rfl
      · exact absurd ((verifyCacheSignature_iff sign d sigmut).mp hb) hsig
    unfold loadCachedLicense
    simp [hmut, hv]
  · intro sig hlen
    unfold verifyCacheSignature
    have hb : (sig.length != (sign d).length) = true := by
      simpa [bne_iff_ne] using hlen
    simp [hb]

/-- Witness for claim C2 at a concrete injective signing function and
concrete envelopes: the well-signed envelope loads and is kept, the
data-mutated and signature-mutated envelopes load as absent with the file
removed, and a wrong-length signature fails verification. -/
theorem claim_C2_witness :
    loadCachedLicense (fun c => 'a' :: c.licenseKey)
        (some ⟨⟨Tier.advanced, ['k'], none, 5⟩, ['a', 'k']⟩)
      = (some ⟨Tier.advanced, ['k'], none, 5⟩,
         some ⟨⟨Tier.advanced, ['k'], none, 5⟩, ['a', 'k']⟩)
    ∧ loadCachedLicense (fun c => 'a' :: c.licenseKey)
        (some ⟨⟨Tier.advanced, ['m'], none, 5⟩, ['a', 'k']⟩) = (none, none)
    ∧ loadCachedLicense (fun c => 'a' :: c.licenseKey)
        (some ⟨⟨Tier.advanced, ['k'], none, 5⟩, ['x', 'k']⟩) = (none, none)
    ∧ verifyCacheSignature (fun c => 'a' :: c.licenseKey)
        ⟨Tier.advanced, ['k'], none, 5⟩ ['a'] = false := by
  have h := claim_C2 (fun c => 'a' :: c.licenseKey)
    ⟨Tier.advanced, ['k'], none, 5⟩ ⟨Tier.advanced, ['m'], none, 5⟩
    ['x', 'k'] (by decide) (by decide) (by decide) (by decide)
  exact ⟨h.1, h.2.1, h.2.2.1, h.2.2.2 ['a'] (by decide)⟩

/-- Claim C3: when a correctly signed cached record with a nonempty license
key is stale (now minus lastValidated is at least the 1-hour TTL) and the
remote re-validation fails, checkLicense resolves to the free tier and the
cache file is gone afterwards; and the outer catch maps any unexpected
error to the free fallback as well. -/
theorem claim_C3 (sign : CacheData → List Char) (d : CacheData) (now : Nat)
    (validate : List Char → Option (LicenseInfo × Envelope))
    (hsig : sign d ≠ []) (hkey : d.licenseKey ≠ [])
    (hstale : CACHE_TTL_MS ≤ now - d.lastValidated)
    (hfail : validate d.licenseKey = none) :
    (checkLicense sign (some ⟨d, sign d⟩) now validate).1.tier = Tier.free
    ∧ (checkLicense sign (some ⟨d, sign d⟩) now validate).2 = none
    ∧ resolveTier (Except.error ()) = freeInfo := by
  have hv : verifyCacheSignature sign d (sign d) = true :=
    (verifyCacheSignature_iff sign d (sign d)).mpr rfl
  have hfresh : ¬ (now - d.lastValidated < CACHE_TTL_MS) := by omega
  unfold checkLicense loadCachedLicense
  simp [hsig, hv, hkey, hfresh, hfail, resolveTier, freeInfo]

/-- Witness for claim C3: a record validated at time 0, read at exactly the
TTL boundary, with a validator that always fails. -/
theorem claim_C3_witness :
    (checkLicense (fun c => 'a' :: c.licenseKey)
        (some ⟨⟨Tier.advanced, ['k'], none, 0⟩, ['a', 'k']⟩)
        3600000 (fun _ => none)).1.tier = Tier.free
    ∧ (checkLicense (fun c => 'a' :: c.licenseKey)
        (some ⟨⟨Tier.advanced, ['k'], none, 0⟩, ['a', 'k']⟩)
        3600000 (fun _ => none)).2 = none
    ∧ resolveTier (Except.error ()) = freeInfo :=
  claim_C3 (fun c => 'a' :: c.licenseKey) ⟨Tier.advanced, ['k'], none, 0⟩
    3600000 (fun _ => none) (by decide) (by decide) (by decide) rfl

theorem findElementInTree_eq_find (els : List UiElement) (c : Criteria) :
    findElementInTree els c = List.find? (matchesAnyCriterion c) els := by
  induction els with
  | nil => rfl
  | cons el rest ih =>
    by_cases h1 : textCrit c el = true <;>
      by_cases h2 : resourceIdCrit c el = true <;>
      by_cases h3 : contentDescCrit c el = true <;>
      by_cases h4 : classNameCrit c el = true <;>
      simp [findElementInTree, List.find?, matchesAnyCriterion,
        h1, h2, h3, h4, ih]

/-- Claim C1: with at least one criterion supplied, findElementInTree
returns the first element in document order that satisfies ANY supplied
criterion (the disjunction of the text, resourceId, contentDescription and
className checks, tried per element in that fixed order), where the text
and contentDescription checks are case-insensitive substring containment
and the resourceId and className checks are case-sensitive substring
containment (as defined by textCrit, resourceIdCrit, contentDescCrit and
classNameCrit); it returns none on the empty list and when no element
matches any criterion. -/
theorem claim_C1 (els : List UiElement) (c : Criteria)
    (_hsupplied : c.text ≠ none ∨ c.resourceId ≠ none
      ∨ c.contentDescription ≠ none ∨ c.className ≠ none) :
    findElementInTree els c = List.find? (matchesAnyCriterion c) els
    ∧ findElementInTree [] c = none
    ∧ ((∀ el ∈ els, matchesAnyCriterion c el = false) →
        findElementInTree els c = none) := by
  refine ⟨findElementInTree_eq_find els c, rfl, ?_⟩
  intro hnone
  rw [findElementInTree_eq_find els c]
  exact List.find?_eq_none.mpr (by intro el hm; simp [hnone el hm])

/-- A fixture element carrying only a text value (used to check the
matcher on the spec's cancel/submit example). -/
def elWithText (t : List Char) : UiElement :=
  ⟨t, [], [], [], [], true, true, false, false, false, false, none, none⟩

/-- The criteria object of the spec example: text Submit, nothing else. -/
def submitCrit : Criteria := ⟨some ("Submit".toList), none, none, none⟩

/-- Witness for claim C1 on the spec's example: searching text Submit over
cancel and submit elements equals the first disjunctive match in document
order, and that match is the submit element (case-insensitive substring
match). -/
theorem claim_C1_witness :
    (findElementInTree [elWithText ("cancel".toList),
        elWithText ("submit".toList)] submitCrit
      = List.find? (matchesAnyCriterion submitCrit)
          [elWithText ("cancel".toList), elWithText ("submit".toList)]
      ∧ findElementInTree [] submitCrit = none
      ∧ ((∀ el ∈ [elWithText ("cancel".toList),
            elWithText ("submit".toList)],
            matchesAnyCriterion submitCrit el = false) →
          findElementInTree [elWithText ("cancel".toList),
            elWithText ("submit".toList)] submitCrit = none))
    ∧ findElementInTree [elWithText ("cancel".toList),
        elWithText ("submit".toList)] submitCrit
      = some (elWithText ("submit".toList)) :=
  ⟨claim_C1 [elWithText ("cancel".toList), elWithText ("submit".toList)]
      submitCrit (Or.inl (by simp [submitCrit])),
   by decide⟩

theorem waitLoop_never (polls : Nat → Option (List UiElement))
    (c : Criteria) (t : Nat)
    (hnever : ∀ k els, polls k = some els →
      findElementInTree els c = none) :
    ∀ fuel k, waitLoop polls c t fuel k = ⟨false, t⟩ := by
  intro fuel
  induction fuel with
  | zero => intro k; rfl
  | succ fuel ih =>
    intro k
    unfold waitLoop
    by_cases hg : k * POLL_INTERVAL < t
    · rw [if_pos hg]
      cases hp : polls k with
      | none => exact ih (k + 1)
      | some els =>
        simp only [hnever k els hp]
        exact ih (k + 1)
    · rw [if_neg hg]

/-- Claim C8: the wait_for_element handler clamps the caller-requested
timeout into the range from 1000 to 60000 milliseconds; when the search
target never appears in any freshly polled dump, it returns a not-found
result whose reported waitTime equals the clamped timeout (not the
caller-requested value), the polling loop having re-run the single-shot
match on each fresh dump at the fixed interval until the clamped timeout
elapsed. -/
theorem claim_C8 (polls : Nat → Option (List UiElement)) (c : Criteria)
    (requested : Nat)
    (hnever : ∀ k els, polls k = some els →
      findElementInTree els c = none) :
    waitForElement polls c requested = ⟨false, clampTimeout requested⟩
    ∧ 1000 ≤ clampTimeout requested
    ∧ clampTimeout requested ≤ MAX_TIMEOUT := by
  refine ⟨?_, ?_, ?_⟩
  · unfold waitForElement
    exact waitLoop_never polls c (clampTimeout requested) hnever
      (clampTimeout requested + 1) 0
  · exact Nat.le_max_left 1000 _
  · unfold clampTimeout
    exact Nat.max_le.mpr ⟨by norm_num [MAX_TIMEOUT], Nat.min_le_right _ _⟩

/-- Witness for claim C8: a caller-requested timeout of 999999ms over dumps
that never contain the target yields a not-found result reporting the
clamped 60000ms, within the clamp bounds. -/
theorem claim_C8_witness :
    waitForElement (fun _ => some []) ⟨some ['x'], none, none, none⟩ 999999
      = ⟨false, 60000⟩
    ∧ 1000 ≤ clampTimeout 999999 ∧ clampTimeout 999999 ≤ MAX_TIMEOUT := by
  have h := claim_C8 (fun _ => some []) ⟨some ['x'], none, none, none⟩
    999999 (by intro k els hp; cases hp; rfl)
  have hc : clampTimeout 999999 = 60000 := by decide
  exact ⟨by rw [h.1, hc], h.2.1, h.2.2⟩

theorem parseLoop_eq_take : ∀ (nodes : List (List Char)) (k : Nat),
    parseLoop nodes k = (nodes.take (MAX_ELEMENTS - k)).map parseNode := by
  intro nodes
  induction nodes with
  | nil => intro k; simp [parseLoop]
  | cons n rest ih =>
    intro k
    unfold parseLoop
    by_cases hk : k ≥ MAX_ELEMENTS
    · rw [if_pos hk]
      have hz : MAX_ELEMENTS - k = 0 := by omega
      simp [hz]
    · rw [if_neg hk, ih (k + 1)]
      have hs : MAX_ELEMENTS - k = (MAX_ELEMENTS - (k + 1)) + 1 := by omega
      rw [hs]
      simp

theorem parseNode_center (node : List Char) :
    (parseNode node).bounds = getText boundsName node
    ∧ (parseNode node).centerX
        = (findBounds (getText boundsName node)).map
            (fun q => (q.1 + q.2.2.1) / 2)
    ∧ (parseNode node).centerY
        = (findBounds (getText boundsName node)).map
            (fun q => (q.2.1 + q.2.2.2) / 2) :=
  ⟨rfl, rfl, rfl⟩

/-- Claim C4: every element produced by parseUiTree has centerX and centerY
present exactly when its bounds attribute matches the rectangle regex of
four well-formed integers [x1,y1][x2,y2], in which case centerX is the
floor of (x1+x2)/2 and centerY the floor of (y1+y2)/2; in particular the
bounds literal [100,200][300,400] yields centerX 200 and centerY 300, and
the literal [bad] yields an element without center fields and no error. -/
theorem claim_C4 :
    (∀ dump els, parseUiTree dump = Except.ok els → ∀ el ∈ els,
        ((el.centerX.isSome ∧ el.centerY.isSome)
            ↔ (findBounds el.bounds).isSome)
        ∧ (∀ x1 y1 x2 y2, findBounds el.bounds = some (x1, y1, x2, y2) →
            el.centerX = some ((x1 + x2) / 2)
              ∧ el.centerY = some ((y1 + y2) / 2)))
    ∧ (∃ el, parseUiTree ("<node bounds=\"[100,200][300,400]\" />".toList)
          = Except.ok [el] ∧ el.centerX = some 200 ∧ el.centerY = some 300)
    ∧ (∃ el, parseUiTree ("<node bounds=\"[bad]\" />".toList)
          = Except.ok [el] ∧ el.centerX = none ∧ el.centerY = none) := by
  refine ⟨?_, ?_, ?_⟩
  · intro dump els h el hel
    have hok : els = ((findNodes dump).take MAX_ELEMENTS).map parseNode := by
      unfold parseUiTree at h
      by_cases hs : dump.length > MAX_XML_SIZE
      · rw [if_pos hs] at h
        cases h
      · rw [if_neg hs] at h
        cases h
        rw [parseLoop_eq_take]
        simp
    rw [hok] at hel
    obtain ⟨node, -, rfl⟩ := List.mem_map.mp hel
    obtain ⟨hb, hcx, hcy⟩ := parseNode_center node
    constructor
    · rw [hcx, hcy, hb]
      cases findBounds (getText boundsName node) <;> simp
    · intro x1 y1 x2 y2 hfb
      rw [hb] at hfb
      rw [hcx, hcy, hfb]
      exact ⟨rfl, rfl⟩
  · exact ⟨parseNode ("<node bounds=\"[100,200][300,400]\" />".toList),
      rfl, rfl, rfl⟩
  · exact ⟨parseNode ("<node bounds=\"[bad]\" />".toList), rfl, rfl, rfl⟩

/-- Witness for claim C4: the element parsed from the single-node dump with
bounds [100,200][300,400] exhibits the presence iff and the exact floor
midpoint 200, 300. -/
theorem claim_C4_witness :
    (((parseNode ("<node bounds=\"[100,200][300,400]\" />".toList)).centerX.isSome
        ∧ (parseNode ("<node bounds=\"[100,200][300,400]\" />".toList)).centerY.isSome)
      ↔ (findBounds
          (parseNode ("<node bounds=\"[100,200][300,400]\" />".toList)).bounds).isSome)
    ∧ ((parseNode ("<node bounds=\"[100,200][300,400]\" />".toList)).centerX
          = some ((100 + 300) / 2)
        ∧ (parseNode ("<node bounds=\"[100,200][300,400]\" />".toList)).centerY
          = some ((200 + 400) / 2)) := by
  have h := claim_C4.1 ("<node bounds=\"[100,200][300,400]\" />".toList)
    [parseNode ("<node bounds=\"[100,200][300,400]\" />".toList)] rfl
    (parseNode ("<node bounds=\"[100,200][300,400]\" />".toList)) (by simp)
  exact ⟨h.1, h.2 100 200 300 400 rfl⟩

/-- Claim C6: a dump within the size ceiling that contains more node
declarations than MAX_ELEMENTS parses without error to exactly
MAX_ELEMENTS elements, namely the first MAX_ELEMENTS nodes in document
order. -/
theorem claim_C6 (dump : List Char) (h1 : dump.length ≤ MAX_XML_SIZE)
    (h2 : MAX_ELEMENTS < (findNodes dump).length) :
    parseUiTree dump
      = Except.ok (((findNodes dump).take MAX_ELEMENTS).map parseNode)
    ∧ (((findNodes dump).take MAX_ELEMENTS).map parseNode).length
        = MAX_ELEMENTS := by
  constructor
  · unfold parseUiTree
    rw [if_neg (by omega), parseLoop_eq_take]
    simp
  · simp [List.length_take]
    omega

theorem tryNodeAt_unit (t : List Char) :
    tryNodeAt (nodeUnit ++ t) = some (nodeUnit, t) := rfl

theorem findNodes_unit_cons (t : List Char) :
    findNodes (nodeUnit ++ t) = nodeUnit :: findNodes t :=
  findNodes_cons_some (tryNodeAt_unit t)

theorem findNodes_flatten_replicate (n : Nat) :
    findNodes ((List.replicate n nodeUnit).flatten)
      = List.replicate n nodeUnit := by
  induction n with
  | zero => rfl
  | succ n ih =>
    rw [List.replicate_succ, List.flatten_cons, findNodes_unit_cons, ih]

theorem flatten_replicate_nodeUnit_length (n : Nat) :
    ((List.replicate n nodeUnit).flatten).length = 7 * n := by
  induction n with
  | zero => rfl
  | succ n ih =>
    rw [List.replicate_succ, List.flatten_cons, List.length_append, ih]
    simp [nodeUnit]
    omega

/-- Witness for claim C6: a dump of 50001 node literals, well within the
size ceiling, parses without error to exactly the first 50000 of them. -/
theorem claim_C6_witness :
    parseUiTree bigDump
      = Except.ok (((findNodes bigDump).take MAX_ELEMENTS).map parseNode)
    ∧ (((findNodes bigDump).take MAX_ELEMENTS).map parseNode).length
        = MAX_ELEMENTS := by
  have h1 : bigDump.length ≤ MAX_XML_SIZE := by
    unfold bigDump
    rw [flatten_replicate_nodeUnit_length]
    norm_num [MAX_ELEMENTS, MAX_XML_SIZE]
  have h2 : MAX_ELEMENTS < (findNodes bigDump).length := by
    unfold bigDump
    rw [findNodes_flatten_replicate]
    simp
  exact claim_C6 bigDump h1 h2

end MobileDev
